import Mathlib

/-!
Shallow embedding of the `net` crate (Ethernet/IPv4/ICMPv4 header views and
the RFC 1071 checksum engine) and proofs about it.

Buffers are modelled as `List Nat` of byte values; machine arithmetic is
modelled on `Nat` with explicit `% 2 ^ w` where the source's `u8`/`u16`/`u32`
operations can wrap.  Fallible operations return `Except Error _` as the
source returns `Result<_>`; a byte access that can be out of bounds is
modelled through `Option`.
-/

namespace Net

/-- The error enumeration from `src/lib.rs`. -/
inductive Error where
  | Exhausted
  | Illegal
  | Unaddressable
  | Finished
  | Truncated
  | Checksum
  | Unrecognized
  | Fragmented
  | Malformed
  | Dropped
deriving DecidableEq

deriving instance DecidableEq for Except

namespace checksum

/-- `checksum::propagate_carries` from `src/lib.rs`: fold the high 16 bits of a
`u32` into the low 16 bits, twice, with `u16` casts rendered as `% 2 ^ 16`. -/
def propagate_carries (word : Nat) : Nat :=
  let sum := word / 2 ^ 16 + word % 2 ^ 16
  (sum / 2 ^ 16 % 2 ^ 16 + sum % 2 ^ 16) % 2 ^ 16

/-- The inner loop of `checksum::data`: take big-endian 16-bit words while at
least two bytes remain and add them into the `u32` accumulator. -/
def pairSum : Nat → List Nat → Nat
  | accum, a :: b :: rest => pairSum ((accum + (a * 256 + b)) % 2 ^ 32) rest
  | accum, _ => accum

/-- The tail of `checksum::data` after the 32-byte chunk loop: sum the
remaining big-endian 16-bit words, then add a final odd byte (if any) as the
high byte of a trailing word. -/
def restSum : Nat → List Nat → Nat
  | accum, a :: b :: rest => restSum ((accum + (a * 256 + b)) % 2 ^ 32) rest
  | accum, [a] => (accum + a * 256) % 2 ^ 32
  | accum, [] => accum

/-- The 32-byte chunk loop of `checksum::data`: while at least `CHUNK_SIZE = 32`
bytes remain, sum that chunk's words, then fall through to the tail loop. -/
def chunkLoop (accum : Nat) (data : List Nat) : Nat :=
  if h : 32 ≤ data.length then
    chunkLoop (pairSum accum (data.take 32)) (data.drop 32)
  else
    restSum accum data
termination_by data.length
decreasing_by
  simp only [List.length_drop]
  omega

/-- `checksum::data` from `src/lib.rs`: RFC 1071 sum (uncomplemented). -/
def data (d : List Nat) : Nat :=
  propagate_carries (chunkLoop 0 d)

/-- `checksum::combine` from `src/lib.rs`: add already-computed 16-bit partial
checksums into a `u32` accumulator and fold. -/
def combine (checksums : List Nat) : Nat :=
  propagate_carries (checksums.foldl (fun accum word => (accum + word) % 2 ^ 32) 0)

end checksum

/-- `Version` from `src/ip.rs`. -/
inductive Version where
  | IPv4
  | IPv6
  | Unsupported
deriving DecidableEq

/-- `Version::of_packet` from `src/ip.rs`: it reads `data[0]` unconditionally,
so the byte access is modelled through `Option` (`none` = out of bounds), and
dispatches on the high nibble `data[0] >> 4`. -/
def Version.of_packet (data : List Nat) : Option (Except Error Version) :=
  data[0]?.map fun b =>
    match b / 16 with
    | 4 => Except.ok Version.IPv4
    | 6 => Except.ok Version.IPv6
    | _ => Except.error Error.Unrecognized

/-- `Protocol` from `src/ip.rs`.  Its `repr(u8)` discriminants are
`HopByHop = 0x00`, `ICMP = 0x01`, `IGMP = 0x02`, `TCP = 0x06`, `UDP = 0x11`,
`IPv6Route = 0x2B`, `IPv6Frag = 0x2C`, `ICMPv6 = 0x3A`, `IPv6NoNxt = 0x3B`,
`IPv6Opts = 0x3C`, `Test = 0xFD`, `Unsupported = 0xFF`. -/
inductive Protocol where
  | HopByHop
  | ICMP
  | IGMP
  | TCP
  | UDP
  | IPv6Route
  | IPv6Frag
  | ICMPv6
  | IPv6NoNxt
  | IPv6Opts
  | Test
  | Unsupported
deriving DecidableEq

/-- `impl From<u8> for Protocol` from `src/ip.rs`.  Note: there is no
`0xFD => Test` arm in the source, so `0xFD` falls into the catch-all. -/
def Protocol.from_u8 (val : Nat) : Protocol :=
  match val with
  | 0x00 => Protocol.HopByHop
  | 0x01 => Protocol.ICMP
  | 0x02 => Protocol.IGMP
  | 0x06 => Protocol.TCP
  | 0x11 => Protocol.UDP
  | 0x2B => Protocol.IPv6Route
  | 0x2C => Protocol.IPv6Frag
  | 0x3A => Protocol.ICMPv6
  | 0x3B => Protocol.IPv6NoNxt
  | 0x3C => Protocol.IPv6Opts
  | _ => Protocol.Unsupported

/-- `impl From<Protocol> for u8` from `src/ip.rs`, byte for byte as written
there (the `IPv6Route`, `IPv6Frag`, `ICMPv6` and `IPv6NoNxt` arms return
`0x11`, `0x2B`, `0x2C` and `0x3A` in the source). -/
def Protocol.to_u8 (protocal : Protocol) : Nat :=
  match protocal with
  | Protocol.HopByHop => 0x00
  | Protocol.ICMP => 0x01
  | Protocol.IGMP => 0x02
  | Protocol.TCP => 0x06
  | Protocol.UDP => 0x11
  | Protocol.IPv6Route => 0x11
  | Protocol.IPv6Frag => 0x2B
  | Protocol.ICMPv6 => 0x2C
  | Protocol.IPv6NoNxt => 0x3A
  | Protocol.IPv6Opts => 0x3C
  | Protocol.Test => 0xFD
  | Protocol.Unsupported => 0xFF

/-- `NetworkEndian::read_u16`: big-endian 16-bit read at byte offset `i`. -/
def read_u16 (l : List Nat) (i : Nat) : Nat :=
  l.getD i 0 * 256 + l.getD (i + 1) 0

/-- `NetworkEndian::write_u16`: big-endian 16-bit write at byte offset `i`,
with the `u8` casts rendered as `% 256`. -/
def write_u16 (l : List Nat) (i : Nat) (v : Nat) : List Nat :=
  (l.set i (v / 256 % 256)).set (i + 1) (v % 256)

namespace ipv4

/- Field offsets from `src/ip/ipv4.rs` `mod field`:
`VER_IHL = 0`, `DSCP_ECN = 1`, `LENGTH = 2..4`, `IDENT = 4..6`,
`FLG_OFF = 6..8`, `TTL = 8`, `PROTOCOL = 9`, `CHECKSUM = 10..12`,
`SRC_ADDR = 12..16`, `DST_ADDR = 16..20`. -/

/-- `Packet::version`: `data[VER_IHL] >> 4`. -/
def version (l : List Nat) : Nat :=
  l.getD 0 0 / 16

/-- `Packet::header_len`: `(data[VER_IHL] & 0x0F) << 2`, i.e. the IHL nibble
scaled from 32-bit words to bytes. -/
def header_len (l : List Nat) : Nat :=
  l.getD 0 0 % 16 * 4

/-- `Packet::dscp`: `data[DSCP_ECN] >> 2`. -/
def dscp (l : List Nat) : Nat :=
  l.getD 1 0 / 4

/-- `Packet::ecn`: `data[DSCP_ECN] & 0x03`. -/
def ecn (l : List Nat) : Nat :=
  l.getD 1 0 % 4

/-- `Packet::total_len`: big-endian `u16` at `LENGTH = 2..4`. -/
def total_len (l : List Nat) : Nat :=
  read_u16 l 2

/-- `Packet::checksum`: big-endian `u16` at `CHECKSUM = 10..12`. -/
def checksum (l : List Nat) : Nat :=
  read_u16 l 10

/-- `Packet::check_len` from `src/ip/ipv4.rs` (`DST_ADDR.end = 20`). -/
def check_len (l : List Nat) : Except Error Unit :=
  let len := l.length
  if len < 20 then
    Except.error Error.Truncated
  else if len < header_len l then
    Except.error Error.Truncated
  else if header_len l > total_len l then
    Except.error Error.Malformed
  else if len < total_len l then
    Except.error Error.Truncated
  else
    Except.ok ()

/-- `Packet::set_version`: `(version & 0x0F) << 4 | (0x0F & data[VER_IHL])`,
an OR of disjoint nibbles rendered as addition. -/
def set_version (l : List Nat) (version : Nat) : List Nat :=
  l.set 0 (version % 16 * 16 + l.getD 0 0 % 16)

/-- `Packet::set_header_len`: `(data[VER_IHL] & 0xF0) | ((len >> 2) & 0x0F)`,
an OR of disjoint nibbles rendered as addition. -/
def set_header_len (l : List Nat) (len : Nat) : List Nat :=
  l.set 0 (l.getD 0 0 / 16 * 16 + len / 4 % 16)

/-- `Packet::set_dscp`: `(data[DSCP_ECN] & !0xFC) | (value << 2)` with the
`u8` shift rendered as `* 4 % 256`; the OR operands are disjoint. -/
def set_dscp (l : List Nat) (value : Nat) : List Nat :=
  l.set 1 (l.getD 1 0 % 4 + value * 4 % 256)

/-- `Packet::set_ecn`: `(data[DSCP_ECN] & !0x03) | (value & 0x03)`. -/
def set_ecn (l : List Nat) (value : Nat) : List Nat :=
  l.set 1 (l.getD 1 0 / 4 * 4 + value % 4)

/-- `Packet::set_checksum`: big-endian write at `CHECKSUM = 10..12`. -/
def set_checksum (l : List Nat) (c : Nat) : List Nat :=
  write_u16 l 10 c

/-- `Packet::fill_checksum` from `src/ip/ipv4.rs`: zero the checksum field,
complement `checksum::data` of the **whole buffer** (`self.buffer.as_ref()`),
and store the result (`!x` on `u16` rendered as `65535 - x`). -/
def fill_checksum (l : List Nat) : List Nat :=
  let l0 := set_checksum l 0
  set_checksum l0 (65535 - Net.checksum.data l0)

/-- `Packet::verify_checksum` from `src/ip/ipv4.rs`: sum only
`data[..header_len]` and compare to `!0 = 0xFFFF`. -/
def verify_checksum (l : List Nat) : Bool :=
  Net.checksum.data (l.take (header_len l)) == 65535

end ipv4

namespace icmpv4

/- Field offsets from `src/icmp/icmpv4.rs` `mod field`:
`TYPE = 0`, `CODE = 1`, `CHECKSUM = 2..4`, `UNUSED = 4..8`,
`ECHO_IDENT = 4..6`, `ECHO_SEQNO = 6..8`, `HEADER_END = 8`. -/

/-- `Packet::check_len` from `src/icmp/icmpv4.rs` (`HEADER_END = 8`). -/
def check_len (l : List Nat) : Except Error Unit :=
  if l.length < 8 then
    Except.error Error.Truncated
  else
    Except.ok ()

/-- `Packet::msg_code`: `data[CODE]`. -/
def msg_code (l : List Nat) : Nat :=
  l.getD 1 0

/-- `Packet::set_msg_code` from `src/icmp/icmpv4.rs`: the body is
`data[field::CODE] == code;`, an equality comparison whose result is
discarded, not an assignment, so the buffer is left unchanged. -/
def set_msg_code (l : List Nat) (code : Nat) : List Nat :=
  l

/-- `Packet::set_checksum`: big-endian write at `CHECKSUM = 2..4`. -/
def set_checksum (l : List Nat) (c : Nat) : List Nat :=
  write_u16 l 2 c

/-- `Packet::fill_checksum` from `src/icmp/icmpv4.rs`: zero the checksum
field, complement `checksum::data` of the whole buffer, store the result. -/
def fill_checksum (l : List Nat) : List Nat :=
  let l0 := set_checksum l 0
  set_checksum l0 (65535 - Net.checksum.data l0)

/-- `Packet::verify_checksum` from `src/icmp/icmpv4.rs`: sum the whole buffer
as received and compare to `!0 = 0xFFFF`. -/
def verify_checksum (l : List Nat) : Bool :=
  Net.checksum.data l == 65535

end icmpv4

/-- A 21-byte IPv4 buffer accepted by `check_len`: version 4, IHL 5
(header length 20), total length 21, one nonzero payload byte. -/
def ipv4Ex21 : List Nat :=
  [0x45, 0, 0, 21, 0, 0, 0, 0, 0, 0, 0, 0, 0, 0, 0, 0, 0, 0, 0, 0, 1]

/-- The same buffer as `ipv4Ex21` with the payload byte zeroed; the two
differ only outside the 20-byte header. -/
def ipv4Ex21zero : List Nat :=
  [0x45, 0, 0, 21, 0, 0, 0, 0, 0, 0, 0, 0, 0, 0, 0, 0, 0, 0, 0, 0, 0]

/-- A 20-byte IPv4 buffer whose IHL nibble is 6 (header length 24). -/
def ipv4Ihl24 : List Nat :=
  [0x46, 0, 0, 20, 0, 0, 0, 0, 0, 0, 0, 0, 0, 0, 0, 0, 0, 0, 0, 0]

/-- A valid 20-byte IPv4 buffer: version 4, IHL 5, total length 20. -/
def ipv4Valid20 : List Nat :=
  [0x45, 0, 0, 20, 0, 0, 0, 0, 0, 0, 0, 0, 0, 0, 0, 0, 0, 0, 0, 0]

/-- An 8-byte ICMPv4 Echo Request buffer (type 8, code 0). -/
def icmpEx8 : List Nat :=
  [8, 0, 0, 0, 0, 0, 0, 0]

namespace checksum

/-- The big-endian 16-bit words of a buffer; a trailing odd byte is the high
byte of a virtual final word (spec §4.1). -/
def words : List Nat → List Nat
  | a :: b :: rest => (a * 256 + b) :: words rest
  | [a] => [a * 256]
  | [] => []

/-- The plain word-by-word RFC 1071 accumulator (no chunking, no wrap). -/
def wordSum (l : List Nat) : Nat :=
  (words l).sum

/-- Reference carry propagation, following the spec's words (§4.1):
repeatedly fold the high 16 bits of the accumulator into the low 16 bits
until the accumulator fits in 16 bits. -/
def foldCarries (x : Nat) : Nat :=
  if x < 2 ^ 16 then x else foldCarries (x / 2 ^ 16 + x % 2 ^ 16)
termination_by x
decreasing_by omega

/-- Reference RFC 1071 checksum, following the spec's words (§4.1): sum the
big-endian 16-bit words (odd trailing byte padded low with zero) and fold the
carries until the result fits in 16 bits. -/
def refData (l : List Nat) : Nat :=
  foldCarries (wordSum l)

theorem propagate_carries_def (x : Nat) :
    propagate_carries x =
      ((x / 2 ^ 16 + x % 2 ^ 16) / 2 ^ 16 % 2 ^ 16 +
        (x / 2 ^ 16 + x % 2 ^ 16) % 2 ^ 16) % 2 ^ 16 := rfl

theorem foldCarries_of_lt {x : Nat} (h : x < 2 ^ 16) : foldCarries x = x := by
  rw [foldCarries, if_pos h]

theorem foldCarries_of_ge {x : Nat} (h : 2 ^ 16 ≤ x) :
    foldCarries x = foldCarries (x / 2 ^ 16 + x % 2 ^ 16) := by
  rw [foldCarries, if_neg (Nat.not_lt.mpr h)]

theorem foldCarries_lt (x : Nat) : foldCarries x < 2 ^ 16 := by
  induction x using foldCarries.induct with
  | case1 x h => rw [foldCarries_of_lt h]; exact h
  | case2 x h ih => rw [foldCarries_of_ge (Nat.not_lt.mp h)]; exact ih

theorem foldCarries_modCast (x : Nat) : foldCarries x % 65535 = x % 65535 := by
  induction x using foldCarries.induct with
  | case1 x h => rw [foldCarries_of_lt h]
  | case2 x h ih =>
    rw [foldCarries_of_ge (Nat.not_lt.mp h), ih]
    omega

theorem foldCarries_eq_zero_iff (x : Nat) : foldCarries x = 0 ↔ x = 0 := by
  induction x using foldCarries.induct with
  | case1 x h => rw [foldCarries_of_lt h]
  | case2 x h ih =>
    rw [foldCarries_of_ge (Nat.not_lt.mp h), ih]
    omega

/-- `propagate_carries` (two explicit folds) agrees with the reference
fold-to-fixpoint on every 32-bit accumulator value. -/
theorem propagate_carries_eq_foldCarries {x : Nat} (h : x < 2 ^ 32) :
    propagate_carries x = foldCarries x := by
  rw [propagate_carries_def]
  by_cases h1 : x < 2 ^ 16
  · rw [foldCarries_of_lt h1]
    omega
  · rw [foldCarries_of_ge (Nat.not_lt.mp h1)]
    have hs : x / 2 ^ 16 + x % 2 ^ 16 ≤ 131070 := by omega
    generalize x / 2 ^ 16 + x % 2 ^ 16 = s at hs ⊢
    by_cases h2 : s < 2 ^ 16
    · rw [foldCarries_of_lt h2]
      omega
    · have h3 : s / 2 ^ 16 + s % 2 ^ 16 < 2 ^ 16 := by omega
      rw [foldCarries_of_ge (Nat.not_lt.mp h2), foldCarries_of_lt h3]
      omega

theorem wordSum_nil : wordSum [] = 0 := rfl

theorem wordSum_single (a : Nat) : wordSum [a] = a * 256 := by
  simp [wordSum, words]

theorem wordSum_cons_cons (a b : Nat) (rest : List Nat) :
    wordSum (a :: b :: rest) = a * 256 + b + wordSum rest := by
  simp [wordSum, words]

/-- Byte-wise bound on the word sum: each pair of bytes contributes less than
`2 ^ 16` and a trailing byte less than `2 ^ 16`, so the sum stays below
`(length + 1) * 2 ^ 15`. -/
theorem wordSum_lt (l : List Nat) :
    (∀ x ∈ l, x < 256) → wordSum l < (l.length + 1) * 2 ^ 15 := by
  induction l using words.induct with
  | case1 a b rest ih =>
    intro h
    have ha := h a (by simp)
    have hb := h b (by simp)
    have ih2 := ih (fun x hx => h x (by simp [hx]))
    rw [wordSum_cons_cons]
    simp only [List.length_cons]
    omega
  | case2 a =>
    intro h
    have := h a (by simp)
    rw [wordSum_single]
    simp only [List.length_singleton]
    omega
  | case3 =>
    intro _
    simp [wordSum_nil]

/-- The tail loop with wrapping `u32` accumulation computes the plain word
sum when no wrap can occur. -/
theorem restSum_eq (accum : Nat) (l : List Nat) :
    accum + wordSum l < 2 ^ 32 → restSum accum l = accum + wordSum l := by
  induction accum, l using restSum.induct with
  | case1 accum a b rest ih =>
    intro h
    rw [wordSum_cons_cons] at h
    have hm : (accum + (a * 256 + b)) % 2 ^ 32 = accum + (a * 256 + b) :=
      Nat.mod_eq_of_lt (by omega)
    simp only [restSum]
    rw [hm] at ih ⊢
    rw [ih (by omega), wordSum_cons_cons]
    omega
  | case2 accum a =>
    intro h
    rw [wordSum_single] at h
    simp only [restSum]
    rw [wordSum_single, Nat.mod_eq_of_lt h]
  | case3 accum =>
    intro _
    simp [restSum, wordSum_nil]

/-- On an even-length list the chunk-inner loop and the tail loop agree (the
odd-byte step is never reached). -/
theorem pairSum_eq_restSum (l : List Nat) (accum : Nat) :
    l.length % 2 = 0 → pairSum accum l = restSum accum l := by
  induction l using words.induct generalizing accum with
  | case1 a b rest ih =>
    intro h
    simp only [List.length_cons] at h
    simp only [pairSum, restSum]
    exact ih _ (by omega)
  | case2 a =>
    intro h
    simp at h
  | case3 =>
    intro _
    rfl

/-- Splitting the tail loop across an even-length prefix. -/
theorem restSum_append (l₁ l₂ : List Nat) (accum : Nat) :
    l₁.length % 2 = 0 →
    restSum accum (l₁ ++ l₂) = restSum (restSum accum l₁) l₂ := by
  induction l₁ using words.induct generalizing accum with
  | case1 a b rest ih =>
    intro h
    simp only [List.length_cons] at h
    rw [List.cons_append, List.cons_append]
    simp only [restSum]
    exact ih _ (by omega)
  | case2 a =>
    intro h
    simp at h
  | case3 =>
    intro _
    simp [restSum]

/-- The word sum of a buffer of at most 65535 bytes fits a `u32`. -/
theorem wordSum_lt_u32 (l : List Nat) (hlen : l.length ≤ 65535)
    (hbytes : ∀ x ∈ l, x < 256) : wordSum l < 2 ^ 32 := by
  have h1 := wordSum_lt l hbytes
  have h2 : (l.length + 1) * 2 ^ 15 ≤ 65536 * 2 ^ 15 :=
    Nat.mul_le_mul_right _ (by omega)
  omega

/-- The 32-byte chunk batching does not change the accumulated value: the
chunk loop computes exactly what the plain tail loop computes. -/
theorem chunkLoop_eq_restSum (accum : Nat) (l : List Nat) :
    chunkLoop accum l = restSum accum l := by
  induction accum, l using chunkLoop.induct with
  | case1 accum l h ih =>
    have htake : (l.take 32).length % 2 = 0 := by
      simp only [List.length_take]
      omega
    rw [chunkLoop]
    simp only [h, dite_true]
    rw [ih, pairSum_eq_restSum (l.take 32) accum htake,
      ← restSum_append (l.take 32) (l.drop 32) accum htake,
      List.take_append_drop]
  | case2 accum l h =>
    rw [chunkLoop]
    simp [h]

/-- Unfolding lemma: `data` through the structurally recursive tail loop
(used to evaluate `data` on concrete buffers, and in the general proofs). -/
theorem data_eq_restSum (l : List Nat) :
    data l = propagate_carries (restSum 0 l) := by
  unfold data
  rw [chunkLoop_eq_restSum]

/-- Under the IPv4 length bound the implementation checksum is exactly the
folded plain word sum. -/
theorem data_eq_foldCarries (l : List Nat) (hlen : l.length ≤ 65535)
    (hbytes : ∀ x ∈ l, x < 256) : data l = foldCarries (wordSum l) := by
  have hfit : wordSum l < 2 ^ 32 := wordSum_lt_u32 l hlen hbytes
  rw [data_eq_restSum, restSum_eq 0 l (by omega), Nat.zero_add]
  exact propagate_carries_eq_foldCarries hfit

/-- C7: For every byte buffer of length at most 65535, `checksum::data`
equals the reference RFC 1071 accumulator — the big-endian 16-bit words are
summed (a trailing odd byte padded low with zero), and the high 16 bits are
folded into the low 16 bits until the result fits in 16 bits; in particular
the 32-byte-chunk batching does not change the result relative to summing
word by word. -/
theorem data_eq_refData (l : List Nat) (hlen : l.length ≤ 65535)
    (hbytes : ∀ x ∈ l, x < 256) : data l = refData l :=
  data_eq_foldCarries l hlen hbytes

/-- Witness for `data_eq_refData` at the concrete buffer
`[0x45, 0x00, 0x00, 0x1C, 0x12]` (odd length, so the padding path is hit). -/
theorem data_eq_refData_witness :
    ([0x45, 0x00, 0x00, 0x1C, 0x12] : List Nat).length ≤ 65535 ∧
      (∀ x ∈ ([0x45, 0x00, 0x00, 0x1C, 0x12] : List Nat), x < 256) ∧
      data [0x45, 0x00, 0x00, 0x1C, 0x12] = refData [0x45, 0x00, 0x00, 0x1C, 0x12] :=
  ⟨by decide, by decide,
    data_eq_refData [0x45, 0x00, 0x00, 0x1C, 0x12] (by decide) (by decide)⟩

theorem propagate_carries_lt (x : Nat) : propagate_carries x < 2 ^ 16 := by
  rw [propagate_carries_def]
  exact Nat.mod_lt _ (by norm_num)

theorem data_le (l : List Nat) : data l ≤ 65535 * l.length := by
  cases l with
  | nil =>
    rw [data_eq_restSum]
    simp [restSum, propagate_carries_def]
  | cons a t =>
    have h1 : data (a :: t) < 2 ^ 16 := by
      rw [data_eq_restSum]
      exact propagate_carries_lt _
    simp only [List.length_cons]
    omega

theorem map_data_sum_le (rs : List (List Nat)) :
    (rs.map data).sum ≤ 65535 * rs.flatten.length := by
  induction rs with
  | nil => simp
  | cons r t ih =>
    have h1 := data_le r
    simp only [List.map_cons, List.sum_cons, List.flatten, List.length_append]
    omega

theorem length_le_flatten (rs : List (List Nat)) (r : List Nat) (hr : r ∈ rs) :
    r.length ≤ rs.flatten.length := by
  induction rs with
  | nil => cases hr
  | cons r0 t ih =>
    simp only [List.flatten, List.length_append]
    rcases List.mem_cons.mp hr with h | h
    · subst h
      omega
    · have := ih h
      omega

theorem foldl_mod_eq_sum (cs : List Nat) : ∀ init : Nat, init + cs.sum < 2 ^ 32 →
    cs.foldl (fun accum word => (accum + word) % 2 ^ 32) init = init + cs.sum := by
  induction cs with
  | nil => simp
  | cons c t ih =>
    intro init h
    simp only [List.sum_cons] at h ⊢
    simp only [List.foldl_cons]
    rw [Nat.mod_eq_of_lt (by omega), ih (init + c) (by omega)]
    omega

theorem map_foldCarries_sum_mod (ws : List Nat) :
    (ws.map foldCarries).sum % 65535 = ws.sum % 65535 := by
  induction ws with
  | nil => rfl
  | cons w t ih =>
    have h1 := foldCarries_modCast w
    simp only [List.map_cons, List.sum_cons]
    omega

theorem map_foldCarries_sum_eq_zero (ws : List Nat) :
    (ws.map foldCarries).sum = 0 ↔ ws.sum = 0 := by
  induction ws with
  | nil => simp
  | cons w t ih =>
    have h1 := foldCarries_eq_zero_iff w
    simp only [List.map_cons, List.sum_cons]
    omega

/-- One's-complement unification: two folded values that agree modulo 65535,
are both below `2 ^ 16`, and vanish together, are equal. -/
theorem foldCarries_unify {a b : Nat} (hmod : a % 65535 = b % 65535)
    (hzero : a = 0 ↔ b = 0) : foldCarries a = foldCarries b := by
  have l1 := foldCarries_lt a
  have l2 := foldCarries_lt b
  have m1 := foldCarries_modCast a
  have m2 := foldCarries_modCast b
  have z1 := foldCarries_eq_zero_iff a
  have z2 := foldCarries_eq_zero_iff b
  omega

theorem wordSum_append (l₁ l₂ : List Nat) (h : l₁.length % 2 = 0) :
    wordSum (l₁ ++ l₂) = wordSum l₁ + wordSum l₂ := by
  induction l₁ using words.induct with
  | case1 a b rest ih =>
    simp only [List.length_cons] at h
    rw [List.cons_append, List.cons_append, wordSum_cons_cons,
      wordSum_cons_cons, ih (by omega)]
    omega
  | case2 a => simp at h
  | case3 => simp [wordSum_nil]

theorem wordSum_flatten (rs : List (List Nat))
    (heven : ∀ r ∈ rs.dropLast, r.length % 2 = 0) :
    wordSum rs.flatten = (rs.map wordSum).sum := by
  induction rs with
  | nil => simp [wordSum_nil]
  | cons r t ih =>
    cases t with
    | nil => simp [List.flatten]
    | cons r2 t2 =>
      have hr : r.length % 2 = 0 := by
        apply heven
        rw [List.dropLast_cons₂]
        exact List.mem_cons_self _ _
      have hrest : ∀ x ∈ (r2 :: t2).dropLast, x.length % 2 = 0 := by
        intro x hx
        apply heven
        rw [List.dropLast_cons₂]
        exact List.mem_cons_of_mem _ hx
      rw [List.flatten_cons, wordSum_append _ _ hr, ih hrest]
      simp

/-- C8 counterexample: for the regions `[[1], [2]]` (the first of odd
length), combining the per-region checksums does not equal the checksum of
the concatenation — the odd region shifts the byte pairing. -/
theorem combine_map_data_ne_data_flatten :
    combine (([[1], [2]] : List (List Nat)).map data) ≠
      data ([[1], [2]] : List (List Nat)).flatten := by
  simp only [List.map_cons, List.map_nil, List.flatten, List.append_nil,
    data_eq_restSum]
  decide

/-- C8 (amended): for every finite list of byte regions in which every
region except possibly the last has even length and whose concatenation is
at most 65535 bytes, `checksum::combine` of the per-region `checksum::data`
results equals `checksum::data` of the concatenation. -/
theorem combine_map_data_eq_data_flatten (rs : List (List Nat))
    (hbytes : ∀ r ∈ rs, ∀ x ∈ r, x < 256)
    (heven : ∀ r ∈ rs.dropLast, r.length % 2 = 0)
    (hlen : rs.flatten.length ≤ 65535) :
    combine (rs.map data) = data rs.flatten := by
  have hbj : ∀ x ∈ rs.flatten, x < 256 := by
    intro x hx
    rw [List.mem_flatten] at hx
    obtain ⟨r, hr, hxr⟩ := hx
    exact hbytes r hr x hxr
  rw [data_eq_foldCarries rs.flatten hlen hbj, wordSum_flatten rs heven]
  have hsum : (rs.map data).sum < 2 ^ 32 := by
    have h1 := map_data_sum_le rs
    have h2 : 65535 * rs.flatten.length ≤ 65535 * 65535 :=
      Nat.mul_le_mul_left _ hlen
    omega
  unfold combine
  rw [foldl_mod_eq_sum _ 0 (by omega), Nat.zero_add,
    propagate_carries_eq_foldCarries hsum]
  have hdata : rs.map data = rs.map (fun r => foldCarries (wordSum r)) := by
    apply List.map_congr_left
    intro r hr
    exact data_eq_foldCarries r (le_trans (length_le_flatten rs r hr) hlen)
      (hbytes r hr)
  rw [hdata, show rs.map (fun r => foldCarries (wordSum r)) =
      (rs.map wordSum).map foldCarries by rw [List.map_map]; rfl]
  exact foldCarries_unify (map_foldCarries_sum_mod (rs.map wordSum))
    (map_foldCarries_sum_eq_zero (rs.map wordSum))

/-- Witness for `combine_map_data_eq_data_flatten` at the concrete regions
`[[0x45, 0x00], [0x00, 0x1C, 0x12]]` (even first region, odd last). -/
theorem combine_map_data_eq_data_flatten_witness :
    (∀ r ∈ ([[0x45, 0x00], [0x00, 0x1C, 0x12]] : List (List Nat)), ∀ x ∈ r, x < 256) ∧
      (∀ r ∈ ([[0x45, 0x00], [0x00, 0x1C, 0x12]] : List (List Nat)).dropLast,
        r.length % 2 = 0) ∧
      ([[0x45, 0x00], [0x00, 0x1C, 0x12]] : List (List Nat)).flatten.length ≤ 65535 ∧
      combine (([[0x45, 0x00], [0x00, 0x1C, 0x12]] : List (List Nat)).map data) =
        data ([[0x45, 0x00], [0x00, 0x1C, 0x12]] : List (List Nat)).flatten :=
  ⟨by decide, by decide, by decide,
    combine_map_data_eq_data_flatten _ (by decide) (by decide) (by decide)⟩

end checksum

theorem getD_set_self (l : List Nat) (i x : Nat) (h : i < l.length) :
    (l.set i x).getD i 0 = x := by
  simp [List.getD_eq_getElem?_getD, List.getElem?_set_self', h]

theorem getD_set_ne (l : List Nat) {i j : Nat} (x : Nat) (h : i ≠ j) :
    (l.set i x).getD j 0 = l.getD j 0 := by
  simp [List.getD_eq_getElem?_getD, List.getElem?_set_ne h]

/-- C1: `Packet::fill_checksum` for IPv4 sums the **whole buffer**, not just
the header: on the valid 21-byte packet `ipv4Ex21` the stored checksum
differs from the complement of the header-only sum (checksum field zeroed),
and changing a byte outside the header changes the stored value. -/
theorem ipv4_fill_checksum_covers_payload :
    ipv4.check_len ipv4Ex21 = Except.ok () ∧
      ipv4.checksum (ipv4.fill_checksum ipv4Ex21) ≠
        65535 - Net.checksum.data
          ((ipv4.set_checksum ipv4Ex21 0).take (ipv4.header_len ipv4Ex21)) ∧
      ipv4.checksum (ipv4.fill_checksum ipv4Ex21) ≠
        ipv4.checksum (ipv4.fill_checksum ipv4Ex21zero) := by
  refine ⟨by decide, ?_, ?_⟩ <;>
  · simp only [ipv4.fill_checksum, Net.checksum.data_eq_restSum]
    decide

/-- C2: after `fill_checksum`, `verify_checksum` returns `false` on the
valid IPv4 packet `ipv4Ex21` (nonzero payload byte), because fill sums the
whole buffer while verify sums only the header. -/
theorem ipv4_fill_then_verify_fails :
    ipv4.check_len ipv4Ex21 = Except.ok () ∧
      ipv4.verify_checksum (ipv4.fill_checksum ipv4Ex21) = false := by
  refine ⟨by decide, ?_⟩
  simp only [ipv4.fill_checksum, ipv4.verify_checksum,
    Net.checksum.data_eq_restSum]
  decide

/-- C3: the `Protocol` wire encoding does not round-trip: `IPv6Route`
encodes to `0x11` (contradicting its own `repr(u8)` discriminant `0x2B`)
which decodes to `UDP`, and `Test` encodes to `0xFD` which decodes to
`Unsupported` because `From<u8>` has no `0xFD` arm. -/
theorem protocol_roundtrip_fails :
    Protocol.to_u8 Protocol.IPv6Route = 0x11 ∧
      Protocol.from_u8 (Protocol.to_u8 Protocol.IPv6Route) = Protocol.UDP ∧
      Protocol.to_u8 Protocol.Test = 0xFD ∧
      Protocol.from_u8 (Protocol.to_u8 Protocol.Test) = Protocol.Unsupported := by
  decide

/-- C4: `set_msg_code` is a no-op (the source compares `data[CODE] == code`
instead of assigning), so reading the code back returns the old byte, not
the one passed in. -/
theorem icmpv4_set_msg_code_noop :
    icmpv4.check_len icmpEx8 = Except.ok () ∧
      icmpv4.msg_code (icmpv4.set_msg_code icmpEx8 5) = 0 ∧
      icmpv4.msg_code (icmpv4.set_msg_code icmpEx8 5) ≠ 5 := by
  decide

/-- C5 counterexample: a 20-byte buffer whose IHL nibble encodes a 24-byte
header fails `check_len` with `Truncated`, not `Malformed`. -/
theorem ipv4_check_len_ihl24_not_malformed :
    ipv4Ihl24.length = 20 ∧ ipv4.header_len ipv4Ihl24 = 24 ∧
      ipv4.check_len ipv4Ihl24 ≠ Except.error Error.Malformed := by
  decide

/-- C5 (amended): for every IPv4 buffer of length exactly 20 whose
header-length nibble encodes 24 bytes, `check_len` fails with `Truncated`
(the `len < header_len` check fires before the `Malformed` comparison). -/
theorem ipv4_check_len_ihl24_truncated (l : List Nat) (h20 : l.length = 20)
    (h24 : ipv4.header_len l = 24) :
    ipv4.check_len l = Except.error Error.Truncated := by
  simp only [ipv4.check_len]
  rw [if_neg (by omega), if_pos (by omega)]

/-- Witness for `ipv4_check_len_ihl24_truncated` at `ipv4Ihl24`. -/
theorem ipv4_check_len_ihl24_truncated_witness :
    ipv4Ihl24.length = 20 ∧ ipv4.header_len ipv4Ihl24 = 24 ∧
      ipv4.check_len ipv4Ihl24 = Except.error Error.Truncated :=
  ⟨by decide, by decide,
    ipv4_check_len_ihl24_truncated ipv4Ihl24 (by decide) (by decide)⟩

/-- C6: `check_len` performs exactly the four checks in order, each failure
short-circuiting the rest: length < 20 → `Truncated`; length < declared
header length → `Truncated`; header length > total length → `Malformed`;
length < total length → `Truncated`; otherwise success. -/
theorem ipv4_check_len_order (l : List Nat) :
    (l.length < 20 → ipv4.check_len l = Except.error Error.Truncated) ∧
      (20 ≤ l.length → l.length < ipv4.header_len l →
        ipv4.check_len l = Except.error Error.Truncated) ∧
      (20 ≤ l.length → ipv4.header_len l ≤ l.length →
        ipv4.total_len l < ipv4.header_len l →
        ipv4.check_len l = Except.error Error.Malformed) ∧
      (20 ≤ l.length → ipv4.header_len l ≤ l.length →
        ipv4.header_len l ≤ ipv4.total_len l → l.length < ipv4.total_len l →
        ipv4.check_len l = Except.error Error.Truncated) ∧
      (20 ≤ l.length → ipv4.header_len l ≤ l.length →
        ipv4.header_len l ≤ ipv4.total_len l → ipv4.total_len l ≤ l.length →
        ipv4.check_len l = Except.ok ()) := by
  refine ⟨?_, ?_, ?_, ?_, ?_⟩
  · intro h1
    simp only [ipv4.check_len]
    rw [if_pos (by omega)]
  · intro h1 h2
    simp only [ipv4.check_len]
    rw [if_neg (by omega), if_pos (by omega)]
  · intro h1 h2 h3
    simp only [ipv4.check_len]
    rw [if_neg (by omega), if_neg (by omega), if_pos (by omega)]
  · intro h1 h2 h3 h4
    simp only [ipv4.check_len]
    rw [if_neg (by omega), if_neg (by omega), if_neg (by omega),
      if_pos (by omega)]
  · intro h1 h2 h3 h4
    simp only [ipv4.check_len]
    rw [if_neg (by omega), if_neg (by omega), if_neg (by omega),
      if_neg (by omega)]

/-- Witness for `ipv4_check_len_order`: the success branch at the valid
20-byte buffer `ipv4Valid20`. -/
theorem ipv4_check_len_order_witness :
    20 ≤ ipv4Valid20.length ∧ ipv4.check_len ipv4Valid20 = Except.ok () :=
  ⟨by decide, (ipv4_check_len_order ipv4Valid20).2.2.2.2 (by decide)
    (by decide) (by decide) (by decide)⟩

/-- C9: on any buffer of length at least 20, the IPv4 bit-packed fields
round-trip (set then get returns the value set) and do not bleed across the
version/IHL byte and the DSCP/ECN byte. -/
theorem ipv4_bitfield_roundtrip (l : List Nat) (hlen : 20 ≤ l.length) :
    (∀ v, v < 16 → ipv4.version (ipv4.set_version l v) = v) ∧
      (∀ hl, hl % 4 = 0 → hl ≤ 60 →
        ipv4.header_len (ipv4.set_header_len l hl) = hl) ∧
      (∀ d, d < 64 → ipv4.dscp (ipv4.set_dscp l d) = d) ∧
      (∀ e, e < 4 → ipv4.ecn (ipv4.set_ecn l e) = e) ∧
      (ipv4.version (ipv4.set_ecn (ipv4.set_dscp l 0x3F) 0x3) = ipv4.version l ∧
        ipv4.header_len (ipv4.set_ecn (ipv4.set_dscp l 0x3F) 0x3) =
          ipv4.header_len l) ∧
      (∀ v, ipv4.dscp (ipv4.set_version l v) = ipv4.dscp l ∧
        ipv4.ecn (ipv4.set_version l v) = ipv4.ecn l) ∧
      (∀ hl, ipv4.dscp (ipv4.set_header_len l hl) = ipv4.dscp l ∧
        ipv4.ecn (ipv4.set_header_len l hl) = ipv4.ecn l) := by
  have h0 : 0 < l.length := by omega
  have h1 : 1 < l.length := by omega
  refine ⟨?_, ?_, ?_, ?_, ⟨?_, ?_⟩, ?_, ?_⟩
  · intro v hv
    simp only [ipv4.version, ipv4.set_version, getD_set_self l 0 _ h0]
    omega
  · intro hl hm h60
    simp only [ipv4.header_len, ipv4.set_header_len, getD_set_self l 0 _ h0]
    omega
  · intro d hd
    simp only [ipv4.dscp, ipv4.set_dscp, getD_set_self l 1 _ h1]
    omega
  · intro e he
    simp only [ipv4.ecn, ipv4.set_ecn, getD_set_self l 1 _ h1]
    omega
  · simp only [ipv4.version, ipv4.set_ecn, ipv4.set_dscp,
      getD_set_ne _ _ (by omega : (1 : Nat) ≠ 0)]
  · simp only [ipv4.header_len, ipv4.set_ecn, ipv4.set_dscp,
      getD_set_ne _ _ (by omega : (1 : Nat) ≠ 0)]
  · intro v
    constructor <;>
      simp only [ipv4.dscp, ipv4.ecn, ipv4.set_version,
        getD_set_ne _ _ (by omega : (0 : Nat) ≠ 1)]
  · intro hl
    constructor <;>
      simp only [ipv4.dscp, ipv4.ecn, ipv4.set_header_len,
        getD_set_ne _ _ (by omega : (0 : Nat) ≠ 1)]

/-- Witness for `ipv4_bitfield_roundtrip` at `ipv4Valid20`. -/
theorem ipv4_bitfield_roundtrip_witness :
    20 ≤ ipv4Valid20.length ∧
      ipv4.version (ipv4.set_version ipv4Valid20 7) = 7 ∧
      ipv4.dscp (ipv4.set_dscp ipv4Valid20 63) = 63 :=
  ⟨by decide,
    (ipv4_bitfield_roundtrip ipv4Valid20 (by decide)).1 7 (by decide),
    (ipv4_bitfield_roundtrip ipv4Valid20 (by decide)).2.2.1 63 (by decide)⟩

/-- C10: `Version::of_packet` reads only byte 0: on the empty buffer the
access is out of bounds (modelled as `none`), and on `b :: rest` the result
is `IPv4` for high nibble 4, `IPv6` for 6, and the `Unrecognized` error
otherwise, independently of `rest`. -/
theorem version_of_packet_spec :
    Version.of_packet [] = none ∧
      (∀ b rest, b / 16 = 4 →
        Version.of_packet (b :: rest) = some (Except.ok Version.IPv4)) ∧
      (∀ b rest, b / 16 = 6 →
        Version.of_packet (b :: rest) = some (Except.ok Version.IPv6)) ∧
      (∀ b rest, b / 16 ≠ 4 → b / 16 ≠ 6 →
        Version.of_packet (b :: rest) = some (Except.error Error.Unrecognized)) ∧
      (∀ b r1 r2, Version.of_packet (b :: r1) = Version.of_packet (b :: r2)) := by
  refine ⟨rfl, ?_, ?_, ?_, ?_⟩
  · intro b rest h
    simp only [Version.of_packet, List.getElem?_cons_zero, Option.map_some', h]
  · intro b rest h
    simp only [Version.of_packet, List.getElem?_cons_zero, Option.map_some', h]
  · intro b rest h4 h6
    simp only [Version.of_packet, List.getElem?_cons_zero, Option.map_some']
  · intro b r1 r2
    simp only [Version.of_packet, List.getElem?_cons_zero]

/-- Witness for `version_of_packet_spec`: byte `0x45` parses as IPv4 and
byte `0x75` is unrecognized. -/
theorem version_of_packet_spec_witness :
    Version.of_packet [0x45] = some (Except.ok Version.IPv4) ∧
      Version.of_packet [0x75] = some (Except.error Error.Unrecognized) :=
  ⟨version_of_packet_spec.2.1 0x45 [] (by decide),
    version_of_packet_spec.2.2.2.1 0x75 [] (by decide) (by decide)⟩

end Net
